import Mathlib

/-!
Verification development for the TBTK property-extraction core.

The development shallowly embeds the C++ sources:
  * `Solver::ElectronFluctuationVertex` (Lib/src/Solver/ElectronFluctuationVertex.cpp),
  * `GPUResourceManager` (TBTK/calc/TightBindingLib/src/GPUResourceManager.cpp),
  * `PropertyExtractor::Diagonalizer` (Lib/include/TBTK/PropertyExtractor/Diagonalizer.h),
and models their external collaborators (Index splitting, InteractionAmplitude,
Property::Susceptibility, the Solver::Diagonalizer eigenvalue store, pattern
resolution) from the specification where the collaborator's code is not part of
the embedded sources.  `double` arithmetic is embedded as exact rational
arithmetic; `std::complex<double>` as a pair of rationals.
-/

namespace TBTK

/-- A complex number, embedded as a pair (real part, imaginary part) of
rationals standing for `std::complex<double>`. -/
abbrev Cplx : Type := ℚ × ℚ

/-- Complex multiplication. -/
def cmul (x y : Cplx) : Cplx := (x.1 * y.1 - x.2 * y.2, x.1 * y.2 + x.2 * y.1)

/-- Multiplication of a complex number by a real scalar (the `multiplier`). -/
def cmulReal (z : Cplx) (r : ℚ) : Cplx := (z.1 * r, z.2 * r)

/-- Squared magnitude of a complex number. -/
def normSq (z : Cplx) : ℚ := z.1 * z.1 + z.2 * z.2

/-- The fixed amplitude-magnitude cutoff `1e-10` of the vertex algorithm. -/
def amplitudeCutoff : ℚ := 1 / 10 ^ 10

/-- `abs(z) < 1e-10`, expressed without square roots: since both sides are
nonnegative, `|z| < c` is equivalent to `normSq z < c ^ 2`. -/
def belowCutoff (z : Cplx) : Prop := normSq z < amplitudeCutoff ^ 2

instance (z : Cplx) : Decidable (belowCutoff z) := by
  unfold belowCutoff; infer_instance

/-- A (component) `Index`: an ordered sequence of integer subindices. -/
abbrev Index : Type := List ℤ

/-- A compound `Index`, represented by the list of component Indices that
`Index::split` recovers.  Modelled from the spec: a compound index
concatenates several sub-Indices, and `split` returns the components
(`Index::split` itself is not among the embedded sources). -/
abbrev CompoundIndex : Type := List Index

/-- `Index::split`, on the component representation of a compound index. -/
def CompoundIndex.split (c : CompoundIndex) : List Index := c

/-- Modelled from the spec: `InteractionAmplitude` (not among the embedded
sources) is a quadruple of two creation-operator subindices, two
annihilation-operator subindices, and a complex coupling amplitude.  `c0` is
`getCreationOperatorIndex(0).at(0)`, `c1` is
`getCreationOperatorIndex(1).at(0)`, `a0` is
`getAnnihilationOperatorIndex(0).at(0)`, `a1` is
`getAnnihilationOperatorIndex(1).at(0)`. -/
structure InteractionAmplitude where
  amplitude : Cplx
  c0 : ℤ
  c1 : ℤ
  a0 : ℤ
  a1 : ℤ
deriving DecidableEq

/-- The energy representations of `Property::EnergyResolvedProperty`. -/
inductive EnergyType where
  | Real : EnergyType
  | FermionicMatsubara : EnergyType
  | BosonicMatsubara : EnergyType
deriving DecidableEq

/-- Modelled from the spec: the slice of `Property::Susceptibility` (not among
the embedded sources) that the vertex solver consumes: an energy type, the
resolution and Matsubara-energy counts, linear data storage (`getData`), and
the linear offset of the block selected by a compound index (`getOffset`). -/
structure Susceptibility where
  energyType : EnergyType
  resolution : ℕ
  numMatsubaraEnergies : ℕ
  data : ℕ → Cplx
  offset : CompoundIndex → ℕ

/-- The context extracted from the compound index by
`calculateSelfEnergyVertexMainAlgorithm` once its arity asserts have passed:
`kIndex = components[0]`, and `b0, b1, b2, b3` are the single subindices of
`intraBlockIndices[0..3] = components[1..4]`. -/
structure VertexContext where
  susceptibility : Susceptibility
  kIndex : Index
  b0 : ℤ
  b1 : ℤ
  b2 : ℤ
  b3 : ℤ
  multiplier : ℚ

/-- The incoming-amplitude skip condition (the first `continue`):
`a1_i != intraBlockIndices[3][0] || c0_i != intraBlockIndices[2][0] ||
abs(amplitude_i) < 1e-10`. -/
def skipLeft (ctx : VertexContext) (i : InteractionAmplitude) : Prop :=
  i.a1 ≠ ctx.b3 ∨ i.c0 ≠ ctx.b2 ∨ belowCutoff i.amplitude

instance (ctx : VertexContext) (i : InteractionAmplitude) :
    Decidable (skipLeft ctx i) := by
  unfold skipLeft; infer_instance

/-- The outgoing-amplitude skip condition (the second `continue`):
`a0_o != intraBlockIndices[0][0] || c1_o != intraBlockIndices[1][0] ||
abs(amplitude_o) < 1e-10`. -/
def skipRight (ctx : VertexContext) (o : InteractionAmplitude) : Prop :=
  o.a0 ≠ ctx.b0 ∨ o.c1 ≠ ctx.b1 ∨ belowCutoff o.amplitude

instance (ctx : VertexContext) (o : InteractionAmplitude) :
    Decidable (skipRight ctx o) := by
  unfold skipRight; infer_instance

/-- The summand added to entry `n` for an unskipped pair:
`amplitude_i * amplitude_o * susceptibilityData[offset + n] * multiplier`,
with the offset looked up at the compound index
`{kIndex, {c0_o}, {a1_o}, {c1_i}, {a0_i}}`. -/
def rawTerm (ctx : VertexContext) (i o : InteractionAmplitude) (n : ℕ) : Cplx :=
  cmulReal
    (cmul (cmul i.amplitude o.amplitude)
      (ctx.susceptibility.data
        (ctx.susceptibility.offset
          [ctx.kIndex, [o.c0], [o.a1], [i.c1], [i.a0]] + n)))
    ctx.multiplier

/-- `vec` with `f n` added to entry `n`, for every `n`: the innermost
`for(n = 0; n < selfEnergyVertex.size(); n++) selfEnergyVertex.at(n) += ...`
loop. -/
def addVec : List Cplx → (ℕ → Cplx) → List Cplx
  | [], _ => []
  | z :: zs, f => (z + f 0) :: addVec zs (fun n => f (n + 1))

/-- The loop over `uRight` for a fixed incoming amplitude `i`. -/
def innerLoop (ctx : VertexContext) (uRight : List InteractionAmplitude)
    (i : InteractionAmplitude) (acc : List Cplx) : List Cplx :=
  uRight.foldl
    (fun acc2 o =>
      if skipRight ctx o then acc2 else addVec acc2 (rawTerm ctx i o))
    acc

/-- The loop over `uLeft`. -/
def outerLoop (ctx : VertexContext) (uLeft uRight : List InteractionAmplitude)
    (vec : List Cplx) : List Cplx :=
  uLeft.foldl
    (fun acc i => if skipLeft ctx i then acc else innerLoop ctx uRight i acc)
    vec

/-- The arity conditions asserted by
`calculateSelfEnergyVertexMainAlgorithm`: the compound index splits into
exactly 5 components and each of the last 4 components has exactly one
subindex. -/
def vertexIndexOk (components : List Index) : Prop :=
  components.length = 5 ∧
  (components.getD 1 []).length = 1 ∧
  (components.getD 2 []).length = 1 ∧
  (components.getD 3 []).length = 1 ∧
  (components.getD 4 []).length = 1

instance (components : List Index) : Decidable (vertexIndexOk components) := by
  unfold vertexIndexOk; infer_instance

/-- The vertex context read off the split components once the arity checks
passed. -/
def contextOf (susceptibility : Susceptibility) (components : List Index)
    (multiplier : ℚ) : VertexContext where
  susceptibility := susceptibility
  kIndex := components.getD 0 []
  b0 := (components.getD 1 []).getD 0 0
  b1 := (components.getD 2 []).getD 0 0
  b2 := (components.getD 3 []).getD 0 0
  b3 := (components.getD 4 []).getD 0 0
  multiplier := multiplier

/-- `ElectronFluctuationVertex::calculateSelfEnergyVertexMainAlgorithm`.
`selfEnergyVertex` is the vector passed in by reference; `none` is the
fail-fast outcome of the two `TBTKAssert` arity checks. -/
def calculateSelfEnergyVertexMainAlgorithm (selfEnergyVertex : List Cplx)
    (index : CompoundIndex) (susceptibility : Susceptibility)
    (uLeft uRight : List InteractionAmplitude) (multiplier : ℚ) :
    Option (List Cplx) :=
  let components := index.split
  if vertexIndexOk components then
    some
      (outerLoop (contextOf susceptibility components multiplier)
        uLeft uRight selfEnergyVertex)
  else
    none

/-- The `Solver::ElectronFluctuationVertex` state consumed by
`calculateSelfEnergyVertex`: the susceptibility together with the
`leftInteraction`, `rightInteraction` and `multiplier` members. -/
structure ElectronFluctuationVertex where
  susceptibility : Susceptibility
  leftInteraction : List InteractionAmplitude
  rightInteraction : List InteractionAmplitude
  multiplier : ℚ

/-- `ElectronFluctuationVertex::calculateSelfEnergyVertex`: dispatches on the
susceptibility's energy type to size the zero-initialized result vector
(`Real` → `getResolution()`, `BosonicMatsubara` → `getNumMatsubaraEnergies()`,
anything else → `TBTKExit`), then runs the main algorithm. -/
def calculateSelfEnergyVertex (solver : ElectronFluctuationVertex)
    (index : CompoundIndex) : Option (List Cplx) :=
  match solver.susceptibility.energyType with
  | EnergyType.Real =>
      calculateSelfEnergyVertexMainAlgorithm
        (List.replicate solver.susceptibility.resolution 0) index
        solver.susceptibility solver.leftInteraction solver.rightInteraction
        solver.multiplier
  | EnergyType.BosonicMatsubara =>
      calculateSelfEnergyVertexMainAlgorithm
        (List.replicate solver.susceptibility.numMatsubaraEnergies 0) index
        solver.susceptibility solver.leftInteraction solver.rightInteraction
        solver.multiplier
  | EnergyType.FermionicMatsubara => none

/-- The contribution of one `uRight` element to entry `n`, with skipped
elements contributing `0`. -/
def rightTerm (ctx : VertexContext) (i o : InteractionAmplitude) (n : ℕ) :
    Cplx :=
  if skipRight ctx o then 0 else rawTerm ctx i o n

/-- The total contribution of the inner loop over `uRight` to entry `n` for a
fixed incoming amplitude `i`. -/
def innerSum (ctx : VertexContext) (uRight : List InteractionAmplitude)
    (i : InteractionAmplitude) (n : ℕ) : Cplx :=
  (uRight.map (fun o => rightTerm ctx i o n)).sum

/-- The contribution of one `uLeft` element to entry `n`, with skipped
elements contributing `0`. -/
def leftTerm (ctx : VertexContext) (uRight : List InteractionAmplitude)
    (i : InteractionAmplitude) (n : ℕ) : Cplx :=
  if skipLeft ctx i then 0 else innerSum ctx uRight i n

/-- The total contribution of the double loop over `uLeft` and `uRight` to
entry `n`. -/
def pairSum (ctx : VertexContext) (uLeft uRight : List InteractionAmplitude)
    (n : ℕ) : Cplx :=
  (uLeft.map (fun i => leftTerm ctx uRight i n)).sum

/-- The filter keeping the interaction amplitudes whose magnitude is not
strictly below the `1e-10` cutoff. -/
def keepAmplitude (a : InteractionAmplitude) : Bool :=
  !(decide (belowCutoff a.amplitude))

/-! ### GPUResourceManager -/

/-- The process-wide state of the `GPUResourceManager`: the device count and
the busy-flags array.  The `omp` lock serializes the critical sections, so
each lock-protected section is embedded as one atomic step on this state. -/
structure GPUResourceManager where
  numDevices : ℕ
  busyDevices : List Bool
deriving DecidableEq

/-- Well-formedness maintained by the static constructor: the busy-flags
array has exactly `numDevices` entries. -/
def GPUResourceManager.wf (s : GPUResourceManager) : Prop :=
  s.busyDevices.length = s.numDevices

/-- Modelled from the spec: `createDeviceTable` (not among the embedded
sources) probes the device count and sizes the all-free busy table; a probing
failure yields a zero-size pool. -/
def createDeviceTable (deviceCount : ℕ) : GPUResourceManager :=
  ⟨deviceCount, List.replicate deviceCount false⟩

/-- The index of the first `false` entry: the `for(n = 0; n < numDevices; n++)
if(!busyDevices[n])` scan. -/
def firstFree : List Bool → Option ℕ
  | [] => none
  | b :: bs => if b then (firstFree bs).map (· + 1) else some 0

/-- Outcome of one `allocateDevice` critical section. -/
inductive AllocResult where
  | fatal : AllocResult
  | blocked : AllocResult
  | allocated (device : ℕ) (state : GPUResourceManager) : AllocResult
deriving DecidableEq

/-- `GPUResourceManager::allocateDevice`: asserts a nonzero pool
(`TBTKAssert(numDevices > 0, ...)` → `fatal`), then scans the busy flags under
the lock for the first free device, marking it busy; if no device is free the
critical section ends empty-handed and the surrounding `while(!done)` loop
retries (`blocked`). -/
def allocateDevice (s : GPUResourceManager) : AllocResult :=
  if s.numDevices = 0 then AllocResult.fatal
  else
    match firstFree (s.busyDevices.take s.numDevices) with
    | some n =>
        AllocResult.allocated n ⟨s.numDevices, s.busyDevices.set n true⟩
    | none => AllocResult.blocked

/-- `GPUResourceManager::freeDevice(device)`: clears the busy flag of
`device` under the lock. -/
def freeDevice (s : GPUResourceManager) (device : ℕ) : GPUResourceManager :=
  ⟨s.numDevices, s.busyDevices.set device false⟩

/-- `k` consecutive `allocateDevice` critical sections, returning the
allocated ids in order; `none` if any section is fatal or finds no free
device. -/
def allocMany (s : GPUResourceManager) : ℕ → Option (List ℕ × GPUResourceManager)
  | 0 => some ([], s)
  | k + 1 =>
      match allocateDevice s with
      | AllocResult.allocated n s' =>
          (allocMany s' k).map (fun p => (n :: p.1, p.2))
      | _ => none

/-! ### PropertyExtractor::Diagonalizer -/

/-- The eigenvalue store of `Solver::Diagonalizer`: the ascending sequence of
eigenvalues produced by the diagonalization. -/
structure DiagonalizerSolver where
  eigenValues : List ℚ

/-- Modelled from the spec: `Solver::Diagonalizer::getEigenValue` (the solver
implementation is not among the embedded sources) returns the eigenvalue at
position `state` of the ascending sequence, failing if `state ∉ [0, N)`. -/
def DiagonalizerSolver.getEigenValue (s : DiagonalizerSolver) (state : ℤ) :
    Option ℚ :=
  if 0 ≤ state ∧ state < (s.eigenValues.length : ℤ) then
    s.eigenValues.get? state.toNat
  else
    none

/-- `PropertyExtractor::Diagonalizer::getEigenValue`: the inline passthrough
`return dSolver->getEigenValue(state)`. -/
def Diagonalizer.getEigenValue (dSolver : DiagonalizerSolver) (state : ℤ) :
    Option ℚ :=
  dSolver.getEigenValue state

/-- The eigensolution a property extraction consumes: the eigenstate count
and the eigenvector projection `amplitude(state, index)`, together with the
external occupation weight policy for each state. -/
structure EigenSolution where
  eigenstateCount : ℕ
  amplitude : ℕ → Index → Cplx
  weight : ℕ → ℚ

/-- Modelled from the spec: the per-index density accumulation of
`calculateDensity` — for a matched index, a weighted sum of `|amplitude|^2`
over the eigenstates. -/
def densityContribution (es : EigenSolution) (i : Index) : ℚ :=
  ((List.range es.eigenstateCount).map
    (fun state => es.weight state * normSq (es.amplitude state i))).sum

/-- The engine's traversal writing one density entry per matched index into
the property container (a mapping from concrete index to value, initially
zero). -/
def writeDensity (es : EigenSolution) (matched : List Index) : Index → ℚ :=
  matched.foldl
    (fun container i =>
      fun j => if j = i then densityContribution es i else container j)
    (fun _ => 0)

/-- Modelled from the spec: the PatternMatcher (not among the embedded
sources), exposing the two resolution entry points behind the two call
shapes: a single pattern plus an explicit per-subindex iteration range, or a
list of fully-wildcarded patterns.  Each yields the ordered list of matched
concrete indices. -/
structure PatternMatcher where
  matchRanges : Index → Index → List Index
  matchPatterns : List Index → List Index

/-- `Diagonalizer::calculateDensity(pattern, ranges)` (call shape (a)):
resolve the pattern against the iteration ranges, then accumulate a density
entry per matched index. -/
def calculateDensityRanges (m : PatternMatcher) (es : EigenSolution)
    (pattern ranges : Index) : Index → ℚ :=
  writeDensity es (m.matchRanges pattern ranges)

/-- `Diagonalizer::calculateDensity(patterns)` (call shape (b)): resolve the
list of fully-wildcarded patterns, then accumulate a density entry per
matched index. -/
def calculateDensityPatterns (m : PatternMatcher) (es : EigenSolution)
    (patterns : List Index) : Index → ℚ :=
  writeDensity es (m.matchPatterns patterns)

/-! ### Lemmas: closed form of the vertex accumulation loops -/

theorem addVec_length (l : List Cplx) (f : ℕ → Cplx) :
    (addVec l f).length = l.length := by
  induction l generalizing f with
  | nil => rfl
  | cons z zs ih => simp [addVec, ih]

theorem addVec_get? (l : List Cplx) (f : ℕ → Cplx) (n : ℕ) :
    (addVec l f).get? n = (l.get? n).map (· + f n) := by
  induction l generalizing f n with
  | nil => simp [addVec]
  | cons z zs ih =>
      cases n with
      | zero => simp [addVec]
      | succ m => simpa [addVec] using ih (fun k => f (k + 1)) m

theorem innerLoop_cons (ctx : VertexContext) (o : InteractionAmplitude)
    (os : List InteractionAmplitude) (i : InteractionAmplitude)
    (acc : List Cplx) :
    innerLoop ctx (o :: os) i acc =
      innerLoop ctx os i
        (if skipRight ctx o then acc else addVec acc (rawTerm ctx i o)) := rfl

theorem innerLoop_get? (ctx : VertexContext) (i : InteractionAmplitude)
    (n : ℕ) (uRight : List InteractionAmplitude) (acc : List Cplx) :
    (innerLoop ctx uRight i acc).get? n =
      (acc.get? n).map (· + innerSum ctx uRight i n) := by
  induction uRight generalizing acc with
  | nil =>
      simp only [innerLoop, List.foldl_nil, innerSum, List.map_nil,
        List.sum_nil]
      cases acc.get? n <;> simp
  | cons o os ih =>
      rw [innerLoop_cons]
      by_cases h : skipRight ctx o
      · rw [if_pos h, ih]
        have hsum : innerSum ctx (o :: os) i n = innerSum ctx os i n := by
          simp [innerSum, rightTerm, h]
        rw [hsum]
      · rw [if_neg h, ih, addVec_get?]
        have hsum : innerSum ctx (o :: os) i n =
            rawTerm ctx i o n + innerSum ctx os i n := by
          simp [innerSum, rightTerm, h]
        rw [hsum]
        cases acc.get? n <;> simp [add_assoc]

theorem innerLoop_length (ctx : VertexContext) (i : InteractionAmplitude)
    (uRight : List InteractionAmplitude) (acc : List Cplx) :
    (innerLoop ctx uRight i acc).length = acc.length := by
  induction uRight generalizing acc with
  | nil => rfl
  | cons o os ih =>
      rw [innerLoop_cons]
      by_cases h : skipRight ctx o
      · rw [if_pos h, ih]
      · rw [if_neg h, ih, addVec_length]

theorem outerLoop_cons (ctx : VertexContext) (i : InteractionAmplitude)
    (is : List InteractionAmplitude) (uRight : List InteractionAmplitude)
    (vec : List Cplx) :
    outerLoop ctx (i :: is) uRight vec =
      outerLoop ctx is uRight
        (if skipLeft ctx i then vec else innerLoop ctx uRight i vec) := rfl

theorem outerLoop_get? (ctx : VertexContext)
    (uLeft uRight : List InteractionAmplitude) (n : ℕ) (vec : List Cplx) :
    (outerLoop ctx uLeft uRight vec).get? n =
      (vec.get? n).map (· + pairSum ctx uLeft uRight n) := by
  induction uLeft generalizing vec with
  | nil =>
      simp only [outerLoop, List.foldl_nil, pairSum, List.map_nil,
        List.sum_nil]
      cases vec.get? n <;> simp
  | cons i is ih =>
      rw [outerLoop_cons]
      by_cases h : skipLeft ctx i
      · rw [if_pos h, ih]
        have hsum : pairSum ctx (i :: is) uRight n =
            pairSum ctx is uRight n := by
          simp [pairSum, leftTerm, h]
        rw [hsum]
      · rw [if_neg h, ih, innerLoop_get?]
        have hsum : pairSum ctx (i :: is) uRight n =
            innerSum ctx uRight i n + pairSum ctx is uRight n := by
          simp [pairSum, leftTerm, h]
        rw [hsum]
        cases vec.get? n <;> simp [add_assoc]

theorem outerLoop_length (ctx : VertexContext)
    (uLeft uRight : List InteractionAmplitude) (vec : List Cplx) :
    (outerLoop ctx uLeft uRight vec).length = vec.length := by
  induction uLeft generalizing vec with
  | nil => rfl
  | cons i is ih =>
      rw [outerLoop_cons]
      by_cases h : skipLeft ctx i
      · rw [if_pos h, ih]
      · rw [if_neg h, ih, innerLoop_length]

theorem sum_map_filter_keep (l : List InteractionAmplitude)
    (f : InteractionAmplitude → Cplx)
    (h : ∀ a, belowCutoff a.amplitude → f a = 0) :
    ((l.filter keepAmplitude).map f).sum = (l.map f).sum := by
  induction l with
  | nil => rfl
  | cons a as ih =>
      by_cases ha : belowCutoff a.amplitude
      · have : keepAmplitude a = false := by simp [keepAmplitude, ha]
        simp [List.filter_cons, this, ih, h a ha]
      · have : keepAmplitude a = true := by simp [keepAmplitude, ha]
        simp [List.filter_cons, this, ih]

theorem innerSum_filter (ctx : VertexContext)
    (uRight : List InteractionAmplitude) (i : InteractionAmplitude) (n : ℕ) :
    innerSum ctx (uRight.filter keepAmplitude) i n = innerSum ctx uRight i n :=
  sum_map_filter_keep uRight _ (fun o ho => by
    simp [rightTerm, skipRight, ho])

theorem pairSum_filter (ctx : VertexContext)
    (uLeft uRight : List InteractionAmplitude) (n : ℕ) :
    pairSum ctx (uLeft.filter keepAmplitude) (uRight.filter keepAmplitude) n =
      pairSum ctx uLeft uRight n := by
  have hinner : ∀ (l : List InteractionAmplitude),
      l.map (fun i => leftTerm ctx (uRight.filter keepAmplitude) i n) =
        l.map (fun i => leftTerm ctx uRight i n) := by
    intro l
    refine List.map_congr_left (fun i _ => ?_)
    simp [leftTerm, innerSum_filter]
  unfold pairSum
  rw [hinner]
  exact sum_map_filter_keep uLeft _ (fun i hi => by
    simp [leftTerm, skipLeft, hi])

theorem innerSum_perm (ctx : VertexContext)
    {uRight uRight' : List InteractionAmplitude}
    (h : uRight'.Perm uRight) (i : InteractionAmplitude) (n : ℕ) :
    innerSum ctx uRight' i n = innerSum ctx uRight i n :=
  (h.map (fun o => rightTerm ctx i o n)).sum_eq

theorem pairSum_perm (ctx : VertexContext)
    {uLeft uLeft' uRight uRight' : List InteractionAmplitude}
    (hL : uLeft'.Perm uLeft) (hR : uRight'.Perm uRight) (n : ℕ) :
    pairSum ctx uLeft' uRight' n = pairSum ctx uLeft uRight n := by
  unfold pairSum
  have hinner : uLeft'.map (fun i => leftTerm ctx uRight' i n) =
      uLeft'.map (fun i => leftTerm ctx uRight i n) := by
    refine List.map_congr_left (fun i _ => ?_)
    simp [leftTerm, innerSum_perm ctx hR]
  rw [hinner]
  exact (hL.map (fun i => leftTerm ctx uRight i n)).sum_eq

theorem mainAlgorithm_pos (vec : List Cplx) (index : CompoundIndex)
    (susceptibility : Susceptibility)
    (uLeft uRight : List InteractionAmplitude) (multiplier : ℚ)
    (h : vertexIndexOk index.split) :
    calculateSelfEnergyVertexMainAlgorithm vec index susceptibility uLeft
        uRight multiplier =
      some
        (outerLoop (contextOf susceptibility index.split multiplier) uLeft
          uRight vec) := by
  simp [calculateSelfEnergyVertexMainAlgorithm, h]

theorem mainAlgorithm_neg (vec : List Cplx) (index : CompoundIndex)
    (susceptibility : Susceptibility)
    (uLeft uRight : List InteractionAmplitude) (multiplier : ℚ)
    (h : ¬vertexIndexOk index.split) :
    calculateSelfEnergyVertexMainAlgorithm vec index susceptibility uLeft
        uRight multiplier = none := by
  simp [calculateSelfEnergyVertexMainAlgorithm, h]

/-- C1: if the index does not split into exactly 5 component Indices, or any
of the last 4 components has more than one subindex, then
`calculateSelfEnergyVertexMainAlgorithm` fails fast (the arity asserts abort,
no result is produced); if the index splits into exactly 5 components with
the last 4 each a single subindex, the arity checks pass and the accumulation
proceeds to produce a result. -/
theorem mainAlgorithm_arity_check (vec : List Cplx) (index : CompoundIndex)
    (susceptibility : Susceptibility)
    (uLeft uRight : List InteractionAmplitude) (multiplier : ℚ) :
    ((index.split.length ≠ 5 ∨
        ∃ j, j < 4 ∧ 1 < (index.split.getD (j + 1) []).length) →
      calculateSelfEnergyVertexMainAlgorithm vec index susceptibility uLeft
        uRight multiplier = none) ∧
    ((index.split.length = 5 ∧
        (∀ j, j < 4 → (index.split.getD (j + 1) []).length = 1)) →
      ∃ result,
        calculateSelfEnergyVertexMainAlgorithm vec index susceptibility uLeft
          uRight multiplier = some result) := by
  constructor
  · intro h
    apply mainAlgorithm_neg
    rintro ⟨h5, h1, h2, h3, h4⟩
    rcases h with h5' | ⟨j, hj, hlen⟩
    · exact h5' h5
    · interval_cases j <;>
        simp only [List.getD_eq_getElem?_getD] at h1 h2 h3 h4 hlen <;>
        norm_num at hlen <;> omega
  · rintro ⟨h5, hall⟩
    refine ⟨_, mainAlgorithm_pos vec index susceptibility uLeft uRight
      multiplier ⟨h5, ?_, ?_, ?_, ?_⟩⟩
    · simpa using hall 0 (by norm_num)
    · simpa using hall 1 (by norm_num)
    · simpa using hall 2 (by norm_num)
    · simpa using hall 3 (by norm_num)

/-- Witness for C1: on a compound index with 0 components the computation
fails, and on a 5-component index with singleton blocks it produces a
result. -/
theorem mainAlgorithm_arity_check_witness :
    (calculateSelfEnergyVertexMainAlgorithm []
      ([] : CompoundIndex)
      ⟨EnergyType.Real, 1, 0, fun _ => 0, fun _ => 0⟩ [] [] 1 = none) ∧
    (∃ result,
      calculateSelfEnergyVertexMainAlgorithm []
        [[0], [0], [0], [0], [0]]
        ⟨EnergyType.Real, 1, 0, fun _ => 0, fun _ => 0⟩ [] [] 1 =
          some result) :=
  ⟨(mainAlgorithm_arity_check [] [] ⟨EnergyType.Real, 1, 0, fun _ => 0,
      fun _ => 0⟩ [] [] 1).1 (Or.inl (by decide)),
    (mainAlgorithm_arity_check [] [[0], [0], [0], [0], [0]]
      ⟨EnergyType.Real, 1, 0, fun _ => 0, fun _ => 0⟩ [] [] 1).2
      (by refine ⟨by decide, ?_⟩; decide)⟩

/-- C2: interaction amplitudes of magnitude strictly below the 1e-10 cutoff
contribute nothing: the result of `calculateSelfEnergyVertexMainAlgorithm`
is identical to the result obtained after removing every such amplitude from
`uLeft` and from `uRight`. -/
theorem mainAlgorithm_cutoff_filter (vec : List Cplx) (index : CompoundIndex)
    (susceptibility : Susceptibility)
    (uLeft uRight : List InteractionAmplitude) (multiplier : ℚ) :
    calculateSelfEnergyVertexMainAlgorithm vec index susceptibility
        (uLeft.filter keepAmplitude) (uRight.filter keepAmplitude)
        multiplier =
      calculateSelfEnergyVertexMainAlgorithm vec index susceptibility uLeft
        uRight multiplier := by
  by_cases h : vertexIndexOk index.split
  · rw [mainAlgorithm_pos _ _ _ _ _ _ h, mainAlgorithm_pos _ _ _ _ _ _ h]
    refine congrArg some (List.ext_get? fun n => ?_)
    rw [outerLoop_get?, outerLoop_get?, pairSum_filter]
  · rw [mainAlgorithm_neg _ _ _ _ _ _ h, mainAlgorithm_neg _ _ _ _ _ _ h]

/-- C3: the accumulation of `calculateSelfEnergyVertexMainAlgorithm` is
invariant under any permutation of `uLeft` and any permutation of
`uRight`. -/
theorem mainAlgorithm_perm_invariant (vec : List Cplx)
    (index : CompoundIndex) (susceptibility : Susceptibility)
    (uLeft uLeft' uRight uRight' : List InteractionAmplitude)
    (multiplier : ℚ) (hL : uLeft'.Perm uLeft) (hR : uRight'.Perm uRight) :
    calculateSelfEnergyVertexMainAlgorithm vec index susceptibility uLeft'
        uRight' multiplier =
      calculateSelfEnergyVertexMainAlgorithm vec index susceptibility uLeft
        uRight multiplier := by
  by_cases h : vertexIndexOk index.split
  · rw [mainAlgorithm_pos _ _ _ _ _ _ h, mainAlgorithm_pos _ _ _ _ _ _ h]
    refine congrArg some (List.ext_get? fun n => ?_)
    rw [outerLoop_get?, outerLoop_get?, pairSum_perm _ hL hR]
  · rw [mainAlgorithm_neg _ _ _ _ _ _ h, mainAlgorithm_neg _ _ _ _ _ _ h]

/-- Witness for C3: swapping the two elements of a concrete `uLeft` leaves
the result unchanged. -/
theorem mainAlgorithm_perm_invariant_witness :
    calculateSelfEnergyVertexMainAlgorithm [(0, 0)]
        [[0], [1], [2], [3], [4]]
        ⟨EnergyType.Real, 1, 0, fun _ => (1, 0), fun _ => 0⟩
        [⟨(2, 0), 1, 1, 1, 1⟩, ⟨(1, 0), 0, 0, 0, 0⟩] [⟨(3, 0), 2, 2, 2, 2⟩]
        1 =
      calculateSelfEnergyVertexMainAlgorithm [(0, 0)]
        [[0], [1], [2], [3], [4]]
        ⟨EnergyType.Real, 1, 0, fun _ => (1, 0), fun _ => 0⟩
        [⟨(1, 0), 0, 0, 0, 0⟩, ⟨(2, 0), 1, 1, 1, 1⟩] [⟨(3, 0), 2, 2, 2, 2⟩]
        1 :=
  mainAlgorithm_perm_invariant [(0, 0)] [[0], [1], [2], [3], [4]]
    ⟨EnergyType.Real, 1, 0, fun _ => (1, 0), fun _ => 0⟩
    [⟨(1, 0), 0, 0, 0, 0⟩, ⟨(2, 0), 1, 1, 1, 1⟩]
    [⟨(2, 0), 1, 1, 1, 1⟩, ⟨(1, 0), 0, 0, 0, 0⟩]
    [⟨(3, 0), 2, 2, 2, 2⟩] [⟨(3, 0), 2, 2, 2, 2⟩] 1
    (List.Perm.swap (⟨(1, 0), 0, 0, 0, 0⟩ : InteractionAmplitude)
      (⟨(2, 0), 1, 1, 1, 1⟩ : InteractionAmplitude) [])
    (List.Perm.refl _)

theorem calculateSelfEnergyVertex_real (solver : ElectronFluctuationVertex)
    (index : CompoundIndex)
    (hE : solver.susceptibility.energyType = EnergyType.Real) :
    calculateSelfEnergyVertex solver index =
      calculateSelfEnergyVertexMainAlgorithm
        (List.replicate solver.susceptibility.resolution 0) index
        solver.susceptibility solver.leftInteraction solver.rightInteraction
        solver.multiplier := by
  unfold calculateSelfEnergyVertex
  rw [hE]

theorem calculateSelfEnergyVertex_bosonic (solver : ElectronFluctuationVertex)
    (index : CompoundIndex)
    (hE : solver.susceptibility.energyType = EnergyType.BosonicMatsubara) :
    calculateSelfEnergyVertex solver index =
      calculateSelfEnergyVertexMainAlgorithm
        (List.replicate solver.susceptibility.numMatsubaraEnergies 0) index
        solver.susceptibility solver.leftInteraction solver.rightInteraction
        solver.multiplier := by
  unfold calculateSelfEnergyVertex
  rw [hE]

theorem calculateSelfEnergyVertex_fermionic
    (solver : ElectronFluctuationVertex) (index : CompoundIndex)
    (hE : solver.susceptibility.energyType = EnergyType.FermionicMatsubara) :
    calculateSelfEnergyVertex solver index = none := by
  unfold calculateSelfEnergyVertex
  rw [hE]

/-- C7 counterexample: a susceptibility with energy type `Real` for which
`calculateSelfEnergyVertex` returns nothing — the compound index `[]` trips
the arity assert of the main algorithm, so no vector with `getResolution()`
entries is produced, contradicting the claim as stated. -/
theorem selfEnergyVertex_real_arity_counterexample :
    (ElectronFluctuationVertex.susceptibility
        ⟨⟨EnergyType.Real, 1, 0, fun _ => 0, fun _ => 0⟩, [], [],
          1⟩).energyType = EnergyType.Real ∧
    calculateSelfEnergyVertex
        ⟨⟨EnergyType.Real, 1, 0, fun _ => 0, fun _ => 0⟩, [], [], 1⟩
        ([] : CompoundIndex) = none :=
  ⟨rfl, rfl⟩

/-- C7 amended: for a compound index accepted by the arity checks,
`calculateSelfEnergyVertex` returns a vector with exactly `getResolution()`
entries when the susceptibility's energy type is `Real` and exactly
`getNumMatsubaraEnergies()` entries when it is `BosonicMatsubara`; for any
other energy-type value it fails fast and returns nothing. -/
theorem selfEnergyVertex_length_by_energyType
    (solver : ElectronFluctuationVertex) (index : CompoundIndex)
    (h : vertexIndexOk index.split) :
    (solver.susceptibility.energyType = EnergyType.Real →
      ∃ result, calculateSelfEnergyVertex solver index = some result ∧
        result.length = solver.susceptibility.resolution) ∧
    (solver.susceptibility.energyType = EnergyType.BosonicMatsubara →
      ∃ result, calculateSelfEnergyVertex solver index = some result ∧
        result.length = solver.susceptibility.numMatsubaraEnergies) ∧
    (solver.susceptibility.energyType = EnergyType.FermionicMatsubara →
      calculateSelfEnergyVertex solver index = none) := by
  refine ⟨fun hE => ?_, fun hE => ?_, fun hE =>
    calculateSelfEnergyVertex_fermionic solver index hE⟩
  · rw [calculateSelfEnergyVertex_real solver index hE,
      mainAlgorithm_pos _ _ _ _ _ _ h]
    refine ⟨_, rfl, ?_⟩
    rw [outerLoop_length, List.length_replicate]
  · rw [calculateSelfEnergyVertex_bosonic solver index hE,
      mainAlgorithm_pos _ _ _ _ _ _ h]
    refine ⟨_, rfl, ?_⟩
    rw [outerLoop_length, List.length_replicate]

/-- Witness for the amended C7: a concrete `Real`-type susceptibility with
resolution 2 and a well-formed index yields a 2-entry vector. -/
theorem selfEnergyVertex_length_by_energyType_witness :
    ∃ result,
      calculateSelfEnergyVertex
          ⟨⟨EnergyType.Real, 2, 0, fun _ => 0, fun _ => 0⟩, [], [], 1⟩
          [[0], [0], [0], [0], [0]] = some result ∧
        result.length = 2 :=
  (selfEnergyVertex_length_by_energyType
    ⟨⟨EnergyType.Real, 2, 0, fun _ => 0, fun _ => 0⟩, [], [], 1⟩
    [[0], [0], [0], [0], [0]] (by decide)).1 rfl

/-! ### Lemmas: GPUResourceManager -/

theorem get?_set_eq {α : Type} (l : List α) (n : ℕ) (a : α)
    (h : n < l.length) : (l.set n a).get? n = some a := by
  simp [List.get?_eq_getElem?, List.getElem?_set_self, h]

theorem get?_set_ne {α : Type} (l : List α) (n m : ℕ) (a : α) (h : m ≠ n) :
    (l.set n a).get? m = l.get? m := by
  simp [List.get?_eq_getElem?, List.getElem?_set_ne (Ne.symm h)]

theorem firstFree_spec :
    ∀ (l : List Bool) (n : ℕ), firstFree l = some n →
      l.get? n = some false ∧ ∀ m, m < n → l.get? m = some true := by
  intro l
  induction l with
  | nil => intro n h; simp [firstFree] at h
  | cons b bs ih =>
      intro n h
      cases b with
      | false =>
          have : n = 0 := by simpa [firstFree] using h.symm
          subst this
          exact ⟨rfl, fun m hm => absurd hm (Nat.not_lt_zero m)⟩
      | true =>
          simp only [firstFree, if_pos, Option.map_eq_some'] at h
          obtain ⟨k, hk, hkn⟩ := h
          subst hkn
          refine ⟨(ih k hk).1, fun m hm => ?_⟩
          cases m with
          | zero => rfl
          | succ m' => exact (ih k hk).2 m' (Nat.lt_of_succ_lt_succ hm)

theorem firstFree_lt (l : List Bool) (n : ℕ) (h : firstFree l = some n) :
    n < l.length := by
  by_contra hge
  have := (firstFree_spec l n h).1
  rw [List.get?_eq_none.mpr (Nat.le_of_not_lt hge)] at this
  exact Option.noConfusion this

theorem firstFree_none :
    ∀ (l : List Bool), firstFree l = none →
      ∀ m, m < l.length → l.get? m = some true := by
  intro l
  induction l with
  | nil => intro _ m hm; exact absurd hm (Nat.not_lt_zero m)
  | cons b bs ih =>
      intro h m hm
      cases b with
      | false => simp [firstFree] at h
      | true =>
          simp only [firstFree, if_pos, Option.map_eq_none'] at h
          cases m with
          | zero => rfl
          | succ m' =>
              exact ih h m' (Nat.lt_of_succ_lt_succ hm)

theorem firstFree_replicate_append (j : ℕ) (t : List Bool) :
    firstFree (List.replicate j true ++ false :: t) = some j := by
  induction j with
  | zero => rfl
  | succ k ih => rw [List.replicate_succ]; simp [firstFree, ih]

theorem set_replicate_append (j : ℕ) (t : List Bool) :
    (List.replicate j true ++ false :: t).set j true =
      List.replicate (j + 1) true ++ t := by
  induction j with
  | zero => rfl
  | succ k ih =>
      rw [List.replicate_succ, List.cons_append]
      show true :: (List.replicate k true ++ false :: t).set k true = _
      rw [ih, List.replicate_succ (n := k + 1), List.cons_append]

theorem allocateDevice_mk (N : ℕ) (L : List Bool) (hN : N ≠ 0)
    (hlen : L.length = N) (n : ℕ) (hf : firstFree L = some n) :
    allocateDevice ⟨N, L⟩ = AllocResult.allocated n ⟨N, L.set n true⟩ := by
  unfold allocateDevice
  dsimp only
  rw [if_neg hN, ← hlen, List.take_length, hf]

theorem allocMany_replicate :
    ∀ (r j : ℕ),
      allocMany ⟨j + r, List.replicate j true ++ List.replicate r false⟩ r =
        some (List.range' j r, ⟨j + r, List.replicate (j + r) true⟩) := by
  intro r
  induction r with
  | zero => intro j; simp [allocMany, List.range']
  | succ k ih =>
      intro j
      have hAlloc :
          allocateDevice
              ⟨j + (k + 1),
                List.replicate j true ++ List.replicate (k + 1) false⟩ =
            AllocResult.allocated j
              ⟨j + (k + 1),
                List.replicate (j + 1) true ++ List.replicate k false⟩ := by
        have h1 : List.replicate (k + 1) false =
            false :: List.replicate k false := List.replicate_succ false k
        rw [h1]
        rw [allocateDevice_mk (j + (k + 1))
          (List.replicate j true ++ false :: List.replicate k false)
          (by omega) (by simp) j
          (firstFree_replicate_append j (List.replicate k false))]
        rw [set_replicate_append]
      have ih' := ih (j + 1)
      rw [show j + 1 + k = j + (k + 1) from by omega] at ih'
      calc
        allocMany
            ⟨j + (k + 1),
              List.replicate j true ++ List.replicate (k + 1) false⟩
            (k + 1) =
            (allocMany
              ⟨j + (k + 1),
                List.replicate (j + 1) true ++ List.replicate k false⟩
              k).map (fun p => (j :: p.1, p.2)) := by
          simp only [allocMany]
          rw [hAlloc]
        _ = some (List.range' j (k + 1),
              ⟨j + (k + 1), List.replicate (j + (k + 1)) true⟩) := by
          rw [ih', List.range'_succ]
          simp

/-- C5: starting from a freshly created pool of size `K`, the `K`
lock-protected `allocateDevice` critical sections all succeed and return `K`
pairwise-distinct device ids, each within `[0, K)` — the pool never
double-allocates a device. -/
theorem allocateDevice_no_double_allocation (K : ℕ) :
    ∃ ids final,
      allocMany (createDeviceTable K) K = some (ids, final) ∧
      ids.Nodup ∧ ids.length = K ∧ ∀ d ∈ ids, d < K := by
  refine ⟨List.range K, ⟨K, List.replicate K true⟩, ?_, List.nodup_range K,
    List.length_range K, fun d hd => List.mem_range.mp hd⟩
  have h0 : createDeviceTable K =
      ⟨0 + K, List.replicate 0 true ++ List.replicate K false⟩ := by
    simp [createDeviceTable]
  rw [h0, allocMany_replicate K 0, List.range_eq_range']
  simp

/-- C6: `allocateDevice` hits its fatal assert exactly when the pool size is
zero; when the pool is nonempty and some device in range is free, it returns
a device id in `[0, numDevices)` and marks that device busy. -/
theorem allocateDevice_fatal_iff (s : GPUResourceManager) (hwf : s.wf) :
    (allocateDevice s = AllocResult.fatal ↔ s.numDevices = 0) ∧
    (∀ m, m < s.numDevices → s.busyDevices.get? m = some false →
      ∃ n s', allocateDevice s = AllocResult.allocated n s' ∧
        n < s.numDevices ∧ s'.busyDevices.get? n = some true) := by
  obtain ⟨N, L⟩ := s
  have hlen : L.length = N := hwf
  constructor
  · by_cases h0 : N = 0
    · simp [allocateDevice, h0]
    · unfold allocateDevice
      dsimp only
      rw [if_neg h0]
      cases hf : firstFree (L.take N) <;> simp [h0]
  · intro m hm hfree
    have h0 : N ≠ 0 := by dsimp only at hm; omega
    have htake : L.take N = L := by rw [← hlen, List.take_length]
    cases hf : firstFree L with
    | none =>
        exfalso
        have := firstFree_none L hf m (by dsimp only at hm; omega)
        rw [hfree] at this
        exact Bool.noConfusion (Option.some.inj this)
    | some n =>
        have hn : n < N := by
          have := firstFree_lt L n hf
          omega
        refine ⟨n, ⟨N, L.set n true⟩,
          allocateDevice_mk N L h0 hlen n hf, hn, ?_⟩
        exact get?_set_eq L n true (by omega)

/-- Witness for C6: on the pool `⟨2, [true, false]⟩`, device 1 is free and
allocation succeeds, returning an id below 2 that is marked busy. -/
theorem allocateDevice_fatal_iff_witness :
    ∃ n s', allocateDevice ⟨2, [true, false]⟩ = AllocResult.allocated n s' ∧
      n < 2 ∧ s'.busyDevices.get? n = some true :=
  (allocateDevice_fatal_iff ⟨2, [true, false]⟩ rfl).2 1 (by norm_num) rfl

/-- C10: whenever `allocateDevice` returns a device id `n`, the lock-held
scan found `busyDevices[n]` free and every lower-numbered device busy: the
lowest-numbered free device is returned. -/
theorem allocateDevice_lowest_free (s : GPUResourceManager) (n : ℕ)
    (s' : GPUResourceManager) (hwf : s.wf)
    (h : allocateDevice s = AllocResult.allocated n s') :
    s.busyDevices.get? n = some false ∧
    ∀ m, m < n → s.busyDevices.get? m = some true := by
  obtain ⟨N, L⟩ := s
  have hlen : L.length = N := hwf
  have htake : L.take N = L := by rw [← hlen, List.take_length]
  unfold allocateDevice at h
  dsimp only at h
  by_cases h0 : N = 0
  · rw [if_pos h0] at h
    exact absurd h (by simp)
  · rw [if_neg h0, htake] at h
    cases hf : firstFree L with
    | none => rw [hf] at h; exact absurd h (by simp)
    | some k =>
        rw [hf] at h
        have hkn : k = n := by
          have := AllocResult.allocated.inj h
          exact this.1
        subst hkn
        exact firstFree_spec L k hf

/-- Witness for C10: allocating on `⟨2, [true, false]⟩` returns device 1,
whose flag was free while device 0 was busy. -/
theorem allocateDevice_lowest_free_witness :
    ([true, false] : List Bool).get? 1 = some false ∧
    ∀ m, m < 1 → ([true, false] : List Bool).get? m = some true :=
  allocateDevice_lowest_free ⟨2, [true, false]⟩ 1 ⟨2, [true, true]⟩ rfl rfl

/-- C8: `freeDevice(device)` clears exactly that device's busy flag and
leaves the rest of the pool state unchanged: every other busy flag, the
busy-table length, and `numDevices` are as before. -/
theorem freeDevice_frame (s : GPUResourceManager) (device : ℕ) (hwf : s.wf)
    (hd : device < s.numDevices) :
    (freeDevice s device).busyDevices.get? device = some false ∧
    (∀ m, m ≠ device →
      (freeDevice s device).busyDevices.get? m = s.busyDevices.get? m) ∧
    (freeDevice s device).numDevices = s.numDevices ∧
    (freeDevice s device).busyDevices.length = s.busyDevices.length := by
  obtain ⟨N, L⟩ := s
  have hlen : L.length = N := hwf
  refine ⟨?_, ?_, rfl, ?_⟩
  · exact get?_set_eq L device false (by dsimp only at hd; omega)
  · intro m hm
    exact get?_set_ne L device m false hm
  · simp [freeDevice]

/-- Witness for C8: freeing device 0 of `⟨2, [true, true]⟩` clears flag 0,
keeps flag 1 and the sizes. -/
theorem freeDevice_frame_witness :
    (freeDevice ⟨2, [true, true]⟩ 0).busyDevices.get? 0 = some false ∧
    (∀ m, m ≠ 0 →
      (freeDevice ⟨2, [true, true]⟩ 0).busyDevices.get? m =
        (⟨2, [true, true]⟩ : GPUResourceManager).busyDevices.get? m) ∧
    (freeDevice ⟨2, [true, true]⟩ 0).numDevices = 2 ∧
    (freeDevice ⟨2, [true, true]⟩ 0).busyDevices.length = 2 :=
  freeDevice_frame ⟨2, [true, true]⟩ 0 rfl (by norm_num)

/-! ### Lemmas: PropertyExtractor::Diagonalizer -/

/-- C9: `getEigenValue(state)` returns the entry at position `state` of the
eigenvalue sequence for every `state` in `[0, N)` and fails for every
`state` outside `[0, N)`. -/
theorem getEigenValue_range (dSolver : DiagonalizerSolver) (state : ℤ) :
    (0 ≤ state ∧ state < (dSolver.eigenValues.length : ℤ) →
      ∃ v, Diagonalizer.getEigenValue dSolver state = some v ∧
        dSolver.eigenValues.get? state.toNat = some v) ∧
    (¬(0 ≤ state ∧ state < (dSolver.eigenValues.length : ℤ)) →
      Diagonalizer.getEigenValue dSolver state = none) := by
  constructor
  · intro h
    have hlt : state.toNat < dSolver.eigenValues.length := by omega
    cases hv : dSolver.eigenValues.get? state.toNat with
    | none =>
        exact absurd (List.get?_eq_none.mp hv) (by omega)
    | some v =>
        refine ⟨v, ?_, rfl⟩
        unfold Diagonalizer.getEigenValue DiagonalizerSolver.getEigenValue
        rw [if_pos h, hv]
  · intro h
    unfold Diagonalizer.getEigenValue DiagonalizerSolver.getEigenValue
    rw [if_neg h]

/-- Witness for C9: on the two-eigenvalue store `[1, 2]`, state 1 is
returned and state -1 fails. -/
theorem getEigenValue_range_witness :
    (∃ v, Diagonalizer.getEigenValue ⟨[1, 2]⟩ 1 = some v ∧
      ([1, 2] : List ℚ).get? 1 = some v) ∧
    Diagonalizer.getEigenValue ⟨[1, 2]⟩ (-1) = none :=
  ⟨(getEigenValue_range ⟨[1, 2]⟩ 1).1 (by constructor <;> norm_num),
    (getEigenValue_range ⟨[1, 2]⟩ (-1)).2 (by norm_num)⟩

theorem writeDensity_aux (es : EigenSolution) (l : List Index)
    (init : Index → ℚ) (j : Index) :
    l.foldl
        (fun container i =>
          fun j' => if j' = i then densityContribution es i else container j')
        init j =
      if j ∈ l then densityContribution es j else init j := by
  induction l generalizing init with
  | nil => simp
  | cons i t ih =>
      rw [List.foldl_cons, ih]
      by_cases hjt : j ∈ t
      · simp [hjt, List.mem_cons]
      · by_cases hji : j = i
        · subst hji
          simp [hjt, List.mem_cons]
        · simp [hjt, hji, List.mem_cons]

theorem writeDensity_eq (es : EigenSolution) (l : List Index) (j : Index) :
    writeDensity es l j =
      if j ∈ l then densityContribution es j else 0 :=
  writeDensity_aux es l (fun _ => 0) j

/-- C4: the two call shapes of `calculateDensity` — a single pattern with an
explicit iteration range, and a list of fully-wildcarded patterns — produce
identical density containers whenever the two requests resolve to the same
set of concrete indices. -/
theorem calculateDensity_call_shapes (m : PatternMatcher)
    (es : EigenSolution) (pattern ranges : Index) (patterns : List Index)
    (h : ∀ i, i ∈ m.matchRanges pattern ranges ↔ i ∈ m.matchPatterns patterns) :
    calculateDensityRanges m es pattern ranges =
      calculateDensityPatterns m es patterns := by
  funext j
  unfold calculateDensityRanges calculateDensityPatterns
  rw [writeDensity_eq, writeDensity_eq]
  by_cases hj : j ∈ m.matchPatterns patterns
  · rw [if_pos ((h j).mpr hj), if_pos hj]
  · rw [if_neg (fun c => hj ((h j).mp c)), if_neg hj]

/-- Witness for C4: a matcher whose two entry points resolve the same
two-index set in different orders yields identical density containers. -/
theorem calculateDensity_call_shapes_witness :
    calculateDensityRanges
        ⟨fun _ _ => [[0], [1]], fun _ => [[1], [0]]⟩
        ⟨1, fun _ _ => (1, 0), fun _ => 1⟩ [] [] =
      calculateDensityPatterns
        ⟨fun _ _ => [[0], [1]], fun _ => [[1], [0]]⟩
        ⟨1, fun _ _ => (1, 0), fun _ => 1⟩ [] :=
  calculateDensity_call_shapes
    ⟨fun _ _ => [[0], [1]], fun _ => [[1], [0]]⟩
    ⟨1, fun _ _ => (1, 0), fun _ => 1⟩ [] [] []
    (fun i => by simp [List.mem_cons]; tauto)

end TBTK
